import Mathlib

/-!
Verification of the anomaly-detection and usage-accounting core of the
smartwater-usage-monitoring-system repository, shallowly embedded in Lean.

The embedded functions follow the Python source:
* `detect_anomalies` in `data_processing.py` (rolling z-score detector),
* the hourly/daily usage accumulator loop shared by
  `data_processing.generate_demo_historical_data` and
  `dashboard.generate_demo_data`,
* `FirebaseManager._calculate_usage_for_period` in `firebase_manager.py`.

Numeric values are modelled as rationals.  The pandas NaN/inf conventions
that the source relies on are made explicit where they matter:
* a centered rolling window that does not fully fit yields NaN, and every
  comparison with NaN is false, so such positions are embedded as `false`;
* when the rolling standard deviation is `0`, the z-score is `0/0 = NaN`
  (comparison false) if the centred value equals the window mean, and
  `±inf` (comparison `|z| > t` true for `t ≥ 0`, and also for `t < 0`)
  otherwise; this is embedded by the `v = 0` branch below;
* when the standard deviation is positive, `|z| > t` over the reals is
  equivalent to `t < 0 ∨ (x - mean)^2 > t^2 * var`, which is how it is
  embedded to stay inside ℚ (no square roots).
-/

/-- Offset of a pandas centered rolling window: `(window - 1) // 2`.
With `center=True`, pandas places the window for output index `i` over
input indices `[i + offset + 1 - w, i + offset]`. -/
def winOffset (w : ℕ) : ℕ := (w - 1) / 2

/-- The centered rolling window of width `w` at index `i`, when it fully
fits inside the series (pandas `min_periods` defaults to the window size,
so a partially-filled window produces NaN, embedded as `none`). -/
def rollingWindow (xs : List ℚ) (w i : ℕ) : Option (List ℚ) :=
  if w ≤ i + winOffset w + 1 ∧ i + winOffset w < xs.length then
    some ((xs.drop (i + winOffset w + 1 - w)).take w)
  else
    none

/-- Mean of a list of rationals (division by zero yields `0` in ℚ, which
only arises for the empty list). -/
def listMean (l : List ℚ) : ℚ := l.sum / (l.length : ℚ)

/-- Sample variance with one delta degree of freedom, as pandas
`rolling(...).std()` computes it (squared).  For a window of length `< 2`
the rational division by `0` (or by `-1` with numerator `0`) gives `0`,
which matches the fact that pandas produces NaN there and NaN comparisons
are false: both land in the `v = 0` branch of `anomalyAt`. -/
def sampleVar (l : List ℚ) : ℚ :=
  (l.map (fun x => (x - listMean l) ^ 2)).sum / ((l.length : ℚ) - 1)

/-- One output entry of `detect_anomalies`: the source computes
`z = (x - rolling_mean) / rolling_std` and flags `abs(z) > threshold`.
The `v = 0` case encodes the NaN (`x = mean`) and `±inf` (`x ≠ mean`)
behaviour of float division by zero; the positive-variance case encodes
`abs z > t` without square roots. -/
def anomalyAt (xs : List ℚ) (w : ℕ) (t : ℚ) (i : ℕ) : Bool :=
  match rollingWindow xs w i with
  | none => false
  | some win =>
    let m := listMean win
    let v := sampleVar win
    let x := xs.getD i 0
    if v = 0 then decide (x ≠ m)
    else decide (t < 0 ∨ (x - m) ^ 2 > t ^ 2 * v)

/-- Embedding of the numeric core of `detect_anomalies`
(`data_processing.py`, lines 129-139): rolling mean and sample standard
deviation over a centered window, z-scores, and the threshold test. -/
def detect_anomalies (xs : List ℚ) (w : ℕ) (t : ℚ) : List Bool :=
  (List.range xs.length).map (anomalyAt xs w t)

/-- The 30-point series of the specification: all values `5.0` except a
spike of `500.0` at index 15. -/
def spikeSeries : List ℚ := (List.range 30).map (fun i => if i = 15 then 500 else 5)

/-- The mean of a constant window is the constant. -/
lemma listMean_replicate (w : ℕ) (c : ℚ) (hw : w ≠ 0) :
    listMean (List.replicate w c) = c := by
  rw [listMean, List.sum_replicate, List.length_replicate, nsmul_eq_mul]
  exact mul_div_cancel_left₀ c (by exact_mod_cast hw)

/-- The sample variance of a constant window is zero. -/
lemma sampleVar_replicate (w : ℕ) (c : ℚ) (hw : w ≠ 0) :
    sampleVar (List.replicate w c) = 0 := by
  rw [sampleVar, listMean_replicate w c hw]
  simp

/-- Reading off one entry of the output series. -/
lemma detect_anomalies_getD (xs : List ℚ) (w : ℕ) (t : ℚ) (i : ℕ)
    (hi : i < xs.length) :
    (detect_anomalies xs w t).getD i false = anomalyAt xs w t i := by
  rw [detect_anomalies, List.getD_eq_getElem?_getD, List.getElem?_map,
    List.getElem?_range hi]
  rfl

/-- C2: at any index whose centered width-w window exists and holds
all-identical values (so the rolling sample standard deviation is 0),
the detector outputs false; being a total function on ℚ it cannot fail
with a division-by-zero error. -/
theorem detect_anomalies_const_window_false
    (xs : List ℚ) (w i : ℕ) (t : ℚ) (c : ℚ) (win : List ℚ)
    (hw : 1 ≤ w)
    (hwin : rollingWindow xs w i = some win)
    (hconst : ∀ x ∈ win, x = c) :
    (detect_anomalies xs w t).getD i false = false := by
  have hoff : winOffset w ≤ w - 1 := Nat.div_le_self _ _
  have hcond : w ≤ i + winOffset w + 1 ∧ i + winOffset w < xs.length := by
    by_contra hc
    rw [rollingWindow, if_neg hc] at hwin
    exact Option.noConfusion hwin
  obtain ⟨h1, h2⟩ := hcond
  have hi : i < xs.length := by omega
  have hwin2 : (xs.drop (i + winOffset w + 1 - w)).take w = win := by
    rw [rollingWindow, if_pos ⟨h1, h2⟩] at hwin
    exact Option.some.inj hwin
  have hlen : win.length = w := by
    rw [← hwin2, List.length_take, List.length_drop]; omega
  have hrep : win = List.replicate w c := List.eq_replicate_iff.mpr ⟨hlen, hconst⟩
  have hxc : xs[i]? = some c := by
    have hq : win[i - (i + winOffset w + 1 - w)]? = xs[i]? := by
      rw [← hwin2, List.getElem?_take_of_lt (by omega), List.getElem?_drop]
      congr 1
      omega
    rw [← hq, hrep, List.getElem?_replicate, if_pos (by omega)]
  rw [detect_anomalies_getD xs w t i hi]
  unfold anomalyAt
  rw [hwin]
  have hv : sampleVar win = 0 := by rw [hrep]; exact sampleVar_replicate w c (by omega)
  have hm : listMean win = c := by rw [hrep]; exact listMean_replicate w c (by omega)
  simp [hv, hm, hxc]

/-- Witness for C2: a constant series of 25 sevens, window 20, index 12. -/
theorem detect_anomalies_const_window_false_witness :
    (1 ≤ 20 ∧ rollingWindow (List.replicate 25 (7 : ℚ)) 20 12 =
        some (List.replicate 20 7) ∧ ∀ x ∈ List.replicate 20 (7 : ℚ), x = 7) ∧
      (detect_anomalies (List.replicate 25 7) 20 3).getD 12 false = false :=
  ⟨⟨by decide, by decide, by decide⟩,
    detect_anomalies_const_window_false (List.replicate 25 7) 20 12 3 7
      (List.replicate 20 7) (by decide) (by decide) (by decide)⟩

/-- C3: a series strictly shorter than the window (the empty series
included) yields an all-false series of the input's length; the embedded
function is total, so no error is possible. -/
theorem detect_anomalies_short_all_false
    (xs : List ℚ) (w : ℕ) (t : ℚ) (h : xs.length < w) :
    detect_anomalies xs w t = List.replicate xs.length false := by
  apply List.eq_replicate_iff.mpr
  refine ⟨by simp [detect_anomalies], ?_⟩
  intro b hb
  simp only [detect_anomalies, List.mem_map, List.mem_range] at hb
  obtain ⟨i, hi, rfl⟩ := hb
  have hnone : rollingWindow xs w i = none := by
    rw [rollingWindow, if_neg]
    simp only [winOffset, not_and, not_lt]
    omega
  unfold anomalyAt
  rw [hnone]

/-- Witness for C3 at the two-point series [1, 2] with window 20. -/
theorem detect_anomalies_short_all_false_witness :
    ([1, 2] : List ℚ).length < 20 ∧
      detect_anomalies [1, 2] 20 3 = List.replicate ([1, 2] : List ℚ).length false :=
  ⟨by decide, detect_anomalies_short_all_false [1, 2] 20 3 (by decide)⟩

unseal Rat.mul Rat.inv Rat.add Rat.sub in
/-- C1: on the flat series of 30 values 5.0 with a spike 500.0 at
index 15, the detector with window 20 and threshold 3.0 returns a series
of length 30 that is true exactly at index 15. -/
theorem detect_anomalies_spike_at_15 :
    detect_anomalies spikeSeries 20 3 = (List.range 30).map (fun i => decide (i = 15)) := by
  decide

/-!
Usage accountant: the hourly/daily accumulator loop shared verbatim by
`data_processing.generate_demo_historical_data` (lines 217-250) and
`dashboard.generate_demo_data` (lines 522-556).  The loop keeps
`daily_sum`, `hourly_sum`, `last_day` (the day-of-month number) and
`last_hour` (the hour-of-day number); on each reading it resets
`daily_sum` when `date.day != last_day`, resets `hourly_sum` when
`date.hour != last_hour`, then adds the reading's volume to both and
emits the pair.
-/

/-- A wall-clock timestamp, as the fields of a Python `datetime` that the
accountant loop reads (`date.day`, `date.hour`; year, month and minute
are carried for stating calendar properties). -/
structure TimeStamp where
  year : ℕ
  month : ℕ
  day : ℕ
  hour : ℕ
  minute : ℕ
deriving DecidableEq

/-- The loop state of the accountant. -/
structure AccState where
  hourly_sum : ℚ
  daily_sum : ℚ
  last_hour : ℕ
  last_day : ℕ
deriving DecidableEq

/-- One iteration of the accountant loop, following the source order:
reset `daily_sum` if the day-of-month changed, reset `hourly_sum` if the
hour-of-day changed, then add the volume to both. -/
def accStep (st : AccState) (d : TimeStamp) (v : ℚ) : AccState :=
  let st1 := if d.day ≠ st.last_day
    then { st with daily_sum := 0, last_day := d.day } else st
  let st2 := if d.hour ≠ st1.last_hour
    then { st1 with hourly_sum := 0, last_hour := d.hour } else st1
  { st2 with hourly_sum := st2.hourly_sum + v, daily_sum := st2.daily_sum + v }

/-- Running the accountant loop from a given state, emitting the
`(hourly_usage, daily_usage)` pair appended for each reading. -/
def runAcc (st : AccState) : List (TimeStamp × ℚ) → List (ℚ × ℚ)
  | [] => []
  | (d, v) :: rest =>
    let st2 := accStep st d v
    (st2.hourly_sum, st2.daily_sum) :: runAcc st2 rest

/-- The emitted `(hourly_usage, daily_usage)` series for a reading list:
sums start at 0 and `last_day`/`last_hour` start at the first reading's
day and hour, as in the source (`last_day = dates[0].day`,
`last_hour = dates[0].hour`). -/
def usageTrace (rs : List (TimeStamp × ℚ)) : List (ℚ × ℚ) :=
  match rs with
  | [] => []
  | (d, _) :: _ => runAcc ⟨0, 0, d.hour, d.day⟩ rs

/-- Two timestamps in the same calendar day. -/
def sameCalendarDay (a b : TimeStamp) : Prop :=
  a.year = b.year ∧ a.month = b.month ∧ a.day = b.day

/-- Two timestamps in the same calendar hour. -/
def sameCalendarHour (a b : TimeStamp) : Prop :=
  sameCalendarDay a b ∧ a.hour = b.hour

/-- Relation between two consecutive readings paired with their emitted
usage values: within the same calendar hour the hourly output does not
decrease, and within the same calendar day the daily output does not
decrease. -/
def monoPair (p q : (TimeStamp × ℚ) × (ℚ × ℚ)) : Prop :=
  (sameCalendarHour p.1.1 q.1.1 → p.2.1 ≤ q.2.1) ∧
  (sameCalendarDay p.1.1 q.1.1 → p.2.2 ≤ q.2.2)

lemma accStep_hourly (st : AccState) (d : TimeStamp) (v : ℚ) :
    (accStep st d v).hourly_sum =
      (if d.hour = st.last_hour then st.hourly_sum else 0) + v := by
  by_cases h1 : d.day = st.last_day <;> by_cases h2 : d.hour = st.last_hour <;>
    simp [accStep, h1, h2]

lemma accStep_daily (st : AccState) (d : TimeStamp) (v : ℚ) :
    (accStep st d v).daily_sum =
      (if d.day = st.last_day then st.daily_sum else 0) + v := by
  by_cases h1 : d.day = st.last_day <;> by_cases h2 : d.hour = st.last_hour <;>
    simp [accStep, h1, h2]

lemma accStep_last_hour (st : AccState) (d : TimeStamp) (v : ℚ) :
    (accStep st d v).last_hour = d.hour := by
  by_cases h1 : d.day = st.last_day <;> by_cases h2 : d.hour = st.last_hour <;>
    simp [accStep, h1, h2]

lemma accStep_last_day (st : AccState) (d : TimeStamp) (v : ℚ) :
    (accStep st d v).last_day = d.day := by
  by_cases h1 : d.day = st.last_day <;> by_cases h2 : d.hour = st.last_hour <;>
    simp [accStep, h1, h2]

/-- The emitted pairs are chained by `monoPair` from any start state, as
long as all volumes are non-negative. -/
lemma runAcc_chain (st : AccState) (rs : List (TimeStamp × ℚ))
    (hv : ∀ p ∈ rs, 0 ≤ p.2) :
    List.Chain' monoPair (rs.zip (runAcc st rs)) := by
  induction rs generalizing st with
  | nil => simp [runAcc]
  | cons p rest ih =>
    obtain ⟨d, v⟩ := p
    cases rest with
    | nil => simp [runAcc]
    | cons q rest2 =>
      obtain ⟨d2, v2⟩ := q
      rw [runAcc]
      rw [List.zip_cons_cons]
      rw [runAcc]
      rw [List.zip_cons_cons]
      refine List.Chain'.cons ?_ ?_
      · refine ⟨fun hsame => ?_, fun hsame => ?_⟩
        · dsimp only at hsame ⊢
          have hq : (accStep (accStep st d v) d2 v2).hourly_sum
              = (accStep st d v).hourly_sum + v2 := by
            rw [accStep_hourly (accStep st d v) d2 v2, accStep_last_hour,
              if_pos hsame.2.symm]
          rw [hq]
          have : 0 ≤ v2 := hv (d2, v2) (by simp)
          linarith
        · dsimp only at hsame ⊢
          have hq : (accStep (accStep st d v) d2 v2).daily_sum
              = (accStep st d v).daily_sum + v2 := by
            rw [accStep_daily (accStep st d v) d2 v2, accStep_last_day,
              if_pos hsame.2.2.symm]
          rw [hq]
          have : 0 ≤ v2 := hv (d2, v2) (by simp)
          linarith
      · have := ih (accStep st d v) (fun p hp => hv p (List.mem_cons_of_mem _ hp))
        rw [runAcc, List.zip_cons_cons] at this
        exact this

/-- The four readings of the specification example: 09:58, 09:59, 10:01,
10:02 on one day, each contributing one liter. -/
def resetExample : List (TimeStamp × ℚ) :=
  [(⟨2024, 1, 1, 9, 58⟩, 1), (⟨2024, 1, 1, 9, 59⟩, 1),
   (⟨2024, 1, 1, 10, 1⟩, 1), (⟨2024, 1, 1, 10, 2⟩, 1)]

unseal Rat.add in
/-- C4: for every reading sequence with non-negative volumes, consecutive
emitted values are non-decreasing for `hourly_usage` within the same
calendar hour and for `daily_usage` within the same calendar day; and on
the example readings 09:58, 09:59, 10:01, 10:02 the hourly series is
1, 2, 1, 2 — a single reset, between the 09:59 and the 10:01 entries,
not one per reading — while the daily series 1, 2, 3, 4 never resets. -/
theorem usage_monotone_single_reset (rs : List (TimeStamp × ℚ))
    (hv : ∀ p ∈ rs, 0 ≤ p.2) :
    List.Chain' monoPair (rs.zip (usageTrace rs)) ∧
    (usageTrace resetExample).map Prod.fst = [1, 2, 1, 2] ∧
    (usageTrace resetExample).map Prod.snd = [1, 2, 3, 4] := by
  refine ⟨?_, by decide, by decide⟩
  match rs, hv with
  | [], _ => simp [usageTrace]
  | (d, v) :: rest, hv => exact runAcc_chain _ _ hv

/-- Witness for C4 at the example readings themselves. -/
theorem usage_monotone_single_reset_witness :
    (∀ p ∈ resetExample, 0 ≤ p.2) ∧
      (List.Chain' monoPair (resetExample.zip (usageTrace resetExample)) ∧
        (usageTrace resetExample).map Prod.fst = [1, 2, 1, 2] ∧
        (usageTrace resetExample).map Prod.snd = [1, 2, 3, 4]) :=
  ⟨by decide, usage_monotone_single_reset resetExample (by decide)⟩

/-- Two readings exactly 24 hours apart: same hour-of-day, different
calendar day. -/
def dayApartPair : List (TimeStamp × ℚ) :=
  [(⟨2024, 1, 1, 9, 0⟩, 2), (⟨2024, 1, 2, 9, 0⟩, 3)]

unseal Rat.add in
/-- C6 counterexample: for two consecutive readings whose calendar days
differ but whose hour-of-day is the same (24 hours apart), the hourly
accumulator is NOT reset: the second emitted hourly_usage is 2 + 3 = 5,
not the reset value 3 that the claim requires. -/
theorem hourly_not_reset_across_day_same_hour :
    (usageTrace dayApartPair).map Prod.fst = [2, 5] ∧
      ¬ (usageTrace dayApartPair).map Prod.fst = [2, 3] := by
  constructor
  · decide
  · decide

/-- C6 amended: the accountant resets the hourly accumulator before
adding exactly when the reading's hour-of-day differs from the previous
reading's hour-of-day; when the hour-of-day is unchanged it keeps
accumulating even if the calendar day changed (e.g. readings exactly 24
hours apart). -/
theorem hourly_reset_iff_hour_of_day_changes
    (st : AccState) (d : TimeStamp) (v : ℚ) :
    (accStep st d v).hourly_sum =
      if d.hour = st.last_hour then st.hourly_sum + v else v := by
  rw [accStep_hourly]
  by_cases h : d.hour = st.last_hour <;> simp [h]

/-- Two readings one month apart with an equal day-of-month number:
January 5 followed by February 5. -/
def monthApartPair : List (TimeStamp × ℚ) :=
  [(⟨2024, 1, 5, 10, 0⟩, 2), (⟨2024, 2, 5, 10, 0⟩, 3)]

unseal Rat.add in
/-- C7 counterexample: across the boundary January 5 → February 5 the
local calendar day differs but the day-of-month number is equal, and the
daily accumulator is NOT reset: the second emitted daily_usage is
2 + 3 = 5, not the reset value 3 that the claim requires. -/
theorem daily_not_reset_equal_day_of_month :
    (usageTrace monthApartPair).map Prod.snd = [2, 5] ∧
      ¬ (usageTrace monthApartPair).map Prod.snd = [2, 3] := by
  constructor
  · decide
  · decide

/-- C7 amended: the accountant resets the daily accumulator before
adding exactly when the reading's day-of-month number differs from the
previous reading's; it does not reset across a boundary where the
day-of-month is equal (e.g. January 5 → February 5, where month and year
change), and it does not reset when the calendar day is unchanged. -/
theorem daily_reset_iff_day_of_month_changes
    (st : AccState) (d : TimeStamp) (v : ℚ) :
    (accStep st d v).daily_sum =
      if d.day = st.last_day then st.daily_sum + v else v := by
  rw [accStep_daily]
  by_cases h : d.day = st.last_day <;> simp [h]

/-!
Usage for a period: `FirebaseManager._calculate_usage_for_period`
(`firebase_manager.py`, lines 220-255).  The source sorts the fetched
readings by `x.get('timestamp', 0)`, returns `0.0` for fewer than two
readings, and otherwise returns
`max(0, last.get('total_volume', 0) - first.get('total_volume', 0))`.
Every field access uses a `dict.get` default, so the function cannot
raise on a missing field.
-/

/-- A reading dictionary as this function reads it: the two fields it
accesses, each possibly absent. -/
structure Reading where
  timestamp : Option ℚ
  total_volume : Option ℚ
deriving DecidableEq

/-- The sort key `x.get('timestamp', 0)`. -/
def tsKey (r : Reading) : ℚ := r.timestamp.getD 0

/-- The volume access `x.get('total_volume', 0)`. -/
def tvol (r : Reading) : ℚ := r.total_volume.getD 0

/-- A reading with both fields absent (used only as the default of the
guarded head/last accesses, which the length check makes unreachable). -/
def noReading : Reading := ⟨none, none⟩

/-- The sort `readings.sort(key=lambda x: x.get('timestamp', 0))`
(Python sorts are stable, as is `List.mergeSort`). -/
def sortReadings (rs : List Reading) : List Reading :=
  rs.mergeSort (fun a b => decide (tsKey a ≤ tsKey b))

/-- Embedding of `_calculate_usage_for_period` on an already-fetched
reading list. -/
def calculate_usage_for_period (rs : List Reading) : ℚ :=
  if rs.isEmpty then 0
  else
    if (sortReadings rs).length < 2 then 0
    else
      max 0 (tvol ((sortReadings rs).getLastD noReading)
        - tvol ((sortReadings rs).headD noReading))

/-- Follows the spec's words, for comparison with the source: the sum of
the per-interval volumes `max(0, total_volume[i] - total_volume[i-1])`
over consecutive readings, which the specification calls the usage
computed for the period. -/
def intervalSumSpec : List Reading → ℚ
  | a :: b :: rest => max 0 (tvol b - tvol a) + intervalSumSpec (b :: rest)
  | _ => 0

/-- The interval sum telescopes on a volume-nondecreasing list. -/
lemma intervalSumSpec_chain (a : Reading) (l : List Reading)
    (h : List.Chain' (fun x y => tvol x ≤ tvol y) (a :: l)) :
    intervalSumSpec (a :: l) = tvol ((a :: l).getLast (by simp)) - tvol a := by
  induction l generalizing a with
  | nil => simp [intervalSumSpec, List.getLast]
  | cons b l2 ih =>
    rw [List.chain'_cons] at h
    have hg : (a :: b :: l2).getLast (by simp) = (b :: l2).getLast (by simp) :=
      List.getLast_cons (by simp)
    rw [intervalSumSpec, ih b h.2, max_eq_right (by linarith [h.1]), hg]
    ring

/-- With a nonempty list, `getLastD` is `getLast` and `headD` is the
head. -/
lemma getLastD_cons_eq_getLast (a : Reading) (l : List Reading) :
    (a :: l).getLastD noReading = (a :: l).getLast (by simp) := by
  rw [List.getLastD_eq_getLast?, List.getLast?_eq_getLast (a :: l) (by simp)]
  rfl

/-- C5: on a timestamp-sorted list with non-decreasing total volumes the
computed usage equals last volume minus first volume, and also equals the
spec's sum of clamped per-interval volumes; and on every input whatsoever
the computed usage is non-negative. -/
theorem usage_period_telescopes (rs : List Reading)
    (hsorted : rs.Pairwise (fun a b => tsKey a ≤ tsKey b))
    (hmono : rs.Pairwise (fun a b => tvol a ≤ tvol b)) :
    (calculate_usage_for_period rs
        = tvol (rs.getLastD noReading) - tvol (rs.headD noReading)
      ∧ calculate_usage_for_period rs = intervalSumSpec rs)
    ∧ ∀ rs2 : List Reading, 0 ≤ calculate_usage_for_period rs2 := by
  have hnonneg : ∀ rs2 : List Reading, 0 ≤ calculate_usage_for_period rs2 := by
    intro rs2
    rw [calculate_usage_for_period]
    split_ifs <;> simp [le_max_left]
  refine ⟨?_, hnonneg⟩
  have hs : sortReadings rs = rs :=
    List.mergeSort_of_sorted (hsorted.imp (fun h => decide_eq_true h))
  match rs, hsorted, hmono with
  | [], _, _ =>
    exact ⟨by rw [calculate_usage_for_period]; simp [tvol, noReading],
      by rw [calculate_usage_for_period]; rfl⟩
  | [a], _, _ =>
    refine ⟨?_, ?_⟩ <;>
      · rw [calculate_usage_for_period]
        rw [if_neg (by rw [List.isEmpty_cons]; exact Bool.false_ne_true), if_pos (by rw [hs]; simp)]
        simp [intervalSumSpec]
  | a :: b :: l, hsorted, hmono =>
    have hchain : List.Chain' (fun x y => tvol x ≤ tvol y) (a :: b :: l) :=
      hmono.chain'
    have hlast_mem : (a :: b :: l).getLast (by simp) ∈ b :: l := by
      rw [List.getLast_cons (by simp)]
      exact List.getLast_mem _
    have hle : tvol a ≤ tvol ((a :: b :: l).getLast (by simp)) :=
      (List.pairwise_cons.mp hmono).1 _ hlast_mem
    have hcalc : calculate_usage_for_period (a :: b :: l)
        = tvol ((a :: b :: l).getLast (by simp)) - tvol a := by
      rw [calculate_usage_for_period,
        if_neg (by rw [List.isEmpty_cons]; exact Bool.false_ne_true),
        if_neg (by rw [hs]; simp), hs, getLastD_cons_eq_getLast,
        List.headD_cons, max_eq_right (by linarith)]
    refine ⟨?_, ?_⟩
    · rw [hcalc, getLastD_cons_eq_getLast, List.headD_cons]
    · rw [hcalc, intervalSumSpec_chain a (b :: l) hchain]

/-- Witness for C5: three readings with increasing timestamps and
volumes 1, 4, 9. -/
theorem usage_period_telescopes_witness :
    ((List.Pairwise (fun a b => tsKey a ≤ tsKey b)
        [Reading.mk (some 1) (some 1), Reading.mk (some 2) (some 4),
          Reading.mk (some 3) (some 9)]) ∧
      (List.Pairwise (fun a b => tvol a ≤ tvol b)
        [Reading.mk (some 1) (some 1), Reading.mk (some 2) (some 4),
          Reading.mk (some 3) (some 9)])) ∧
    ((calculate_usage_for_period
        [Reading.mk (some 1) (some 1), Reading.mk (some 2) (some 4),
          Reading.mk (some 3) (some 9)]
        = tvol (([Reading.mk (some 1) (some 1), Reading.mk (some 2) (some 4),
            Reading.mk (some 3) (some 9)]).getLastD noReading)
          - tvol (([Reading.mk (some 1) (some 1), Reading.mk (some 2) (some 4),
            Reading.mk (some 3) (some 9)]).headD noReading)
      ∧ calculate_usage_for_period
          [Reading.mk (some 1) (some 1), Reading.mk (some 2) (some 4),
            Reading.mk (some 3) (some 9)]
          = intervalSumSpec
            [Reading.mk (some 1) (some 1), Reading.mk (some 2) (some 4),
              Reading.mk (some 3) (some 9)])
    ∧ ∀ rs2 : List Reading, 0 ≤ calculate_usage_for_period rs2) :=
  ⟨⟨by decide, by decide⟩,
    usage_period_telescopes _ (by decide) (by decide)⟩

/-- Replacing an absent timestamp by an explicit timestamp 0, the value
`x.get('timestamp', 0)` supplies for it. -/
def fillTs (r : Reading) : Reading :=
  { r with timestamp := some (r.timestamp.getD 0) }

/-- A two-reading input whose first reading has no timestamp field. -/
def missingTsPair : List Reading :=
  [Reading.mk none (some 5), Reading.mk (some 10) (some 8)]

/-- C9 counterexample: on an input containing a reading with no
timestamp field, `_calculate_usage_for_period` does not fail with any
error: every access goes through a `dict.get` default, the reading is
sorted with key 0, and the usage value 8 - 5 = 3 is returned to the
caller. -/
theorem usage_missing_timestamp_returns_value :
    calculate_usage_for_period missingTsPair = 3 := by
  have hs : sortReadings missingTsPair = missingTsPair :=
    List.mergeSort_of_sorted (by decide)
  rw [calculate_usage_for_period, hs]
  norm_num [missingTsPair, tvol]

/-- Sorting commutes with filling absent timestamps, because the sort
key already applies the same default. -/
lemma sortReadings_map_fillTs (rs : List Reading) :
    (sortReadings rs).map fillTs = sortReadings (rs.map fillTs) := by
  rw [sortReadings, sortReadings]
  exact List.map_mergeSort (fun a _ b _ => rfl)

lemma getLastD_map_fillTs_tvol (l : List Reading) :
    tvol ((l.map fillTs).getLastD noReading) = tvol (l.getLastD noReading) := by
  rw [List.getLastD_eq_getLast?, List.getLastD_eq_getLast?, List.getLast?_map]
  cases l.getLast? with
  | none => rfl
  | some r => rfl

lemma headD_map_fillTs_tvol (l : List Reading) :
    tvol ((l.map fillTs).headD noReading) = tvol (l.headD noReading) := by
  rw [List.headD_eq_head?_getD, List.headD_eq_head?_getD, List.head?_map]
  cases l.head? with
  | none => rfl
  | some r => rfl

/-- C9 amended: an input list containing a reading that lacks the
timestamp field does not make the operation fail; the missing timestamp
is read as 0 through the `dict.get` default, so the result is the same as
on the input with the timestamp field filled in with 0. -/
theorem usage_missing_timestamp_defaults_zero (rs : List Reading)
    (h : ∃ r ∈ rs, r.timestamp = none) :
    calculate_usage_for_period rs = calculate_usage_for_period (rs.map fillTs) := by
  have hempty : (rs.map fillTs).isEmpty = rs.isEmpty := by cases rs <;> rfl
  rw [calculate_usage_for_period, calculate_usage_for_period, hempty,
    ← sortReadings_map_fillTs, List.length_map, getLastD_map_fillTs_tvol,
    headD_map_fillTs_tvol]

/-- Witness for C9's amended claim at the concrete missing-timestamp
input. -/
theorem usage_missing_timestamp_defaults_zero_witness :
    (∃ r ∈ missingTsPair, r.timestamp = none) ∧
      calculate_usage_for_period missingTsPair
        = calculate_usage_for_period (missingTsPair.map fillTs) :=
  ⟨by decide, usage_missing_timestamp_defaults_zero missingTsPair (by decide)⟩

/-!
The guard and exception behaviour of `detect_anomalies`
(`data_processing.py`, lines 125-143).  The function first returns
`pd.Series(index=df.index)` — a series of missing values aligned with the
index — when the frame is empty or the column is absent; the numeric body
runs inside `try`, and any exception (pandas raises when asked to
aggregate a non-numeric column) is caught, the handler returning
`pd.Series(False, index=df.index)`, an all-false boolean series.
-/

/-- A cell of the selected column: either a number or a non-numeric
value. -/
inductive Value where
  | num : ℚ → Value
  | nonNum : Value
deriving DecidableEq

/-- Numeric view of the column: `some` of the numbers when every cell is
numeric, otherwise `none` (the situation in which pandas raises inside
the `try` block). -/
def toNums : List Value → Option (List ℚ)
  | [] => some []
  | Value.num q :: rest => (toNums rest).map (fun l => q :: l)
  | Value.nonNum :: _ => none

/-- The body of `detect_anomalies` up to the `except` handler: the
empty-or-missing-column guard returns a series of missing values
(`none` entries) aligned with the index, the numeric path returns the
z-score flags, and a non-numeric column raises. -/
def detect_anomalies_body (index_len : ℕ) (column : Option (List Value))
    (w : ℕ) (t : ℚ) : Except String (List (Option Bool)) :=
  match column with
  | none => Except.ok (List.replicate index_len none)
  | some xs =>
    if index_len = 0 then Except.ok (List.replicate index_len none)
    else
      match toNums xs with
      | some qs => Except.ok ((detect_anomalies qs w t).map some)
      | none => Except.error "no numeric data to aggregate"

/-- The whole of `detect_anomalies` including its `except` handler, which
converts any internal error into `pd.Series(False, index=df.index)`. -/
def detect_anomalies_py (index_len : ℕ) (column : Option (List Value))
    (w : ℕ) (t : ℚ) : List (Option Bool) :=
  match detect_anomalies_body index_len column w t with
  | Except.ok s => s
  | Except.error _ => List.replicate index_len (some false)

/-- A column holding one non-numeric cell ahead of two numbers. -/
def nonNumericColumn : List Value := [Value.nonNum, Value.num 1, Value.num 2]

/-- C8 counterexample: on a three-row frame whose column holds a
non-numeric value, the internal computation raises but `detect_anomalies`
catches the error and returns the all-false series to its caller; it does
not fail with any error. -/
theorem detect_nonnumeric_returns_series :
    detect_anomalies_body 3 (some nonNumericColumn) 20 3
        = Except.error "no numeric data to aggregate" ∧
      detect_anomalies_py 3 (some nonNumericColumn) 20 3
        = List.replicate 3 (some false) :=
  ⟨rfl, rfl⟩

/-- C8 amended: for every series containing a non-numeric value, the
internal aggregation raises, the `except` handler catches it, and
`detect_anomalies` returns an all-false boolean series of the index's
length instead of propagating an error. -/
theorem detect_nonnumeric_all_false (index_len w : ℕ) (t : ℚ)
    (xs : List Value) (hx : Value.nonNum ∈ xs) :
    detect_anomalies_py index_len (some xs) w t
      = List.replicate index_len (some false) := by
  have hnone : toNums xs = none := by
    induction xs with
    | nil => cases hx
    | cons a rest ih =>
      cases a with
      | nonNum => rfl
      | num q =>
        have hmem : Value.nonNum ∈ rest := by
          rcases List.mem_cons.mp hx with h | h
          · exact absurd h (by simp)
          · exact h
        rw [toNums, ih hmem]
        rfl
  by_cases hn : index_len = 0
  · subst hn
    rw [detect_anomalies_py, detect_anomalies_body]
    rfl
  · rw [detect_anomalies_py, detect_anomalies_body]
    rw [if_neg hn, hnone]

/-- Witness for C8's amended claim at the concrete non-numeric column. -/
theorem detect_nonnumeric_all_false_witness :
    Value.nonNum ∈ nonNumericColumn ∧
      detect_anomalies_py 3 (some nonNumericColumn) 20 3
        = List.replicate 3 (some false) :=
  ⟨by decide, detect_nonnumeric_all_false 3 20 3 nonNumericColumn (by decide)⟩

/-- C10: when the named column is absent, `detect_anomalies` does not
raise: it returns a series of missing values (not booleans) aligned with
the frame's index, so no entry is `true` and no anomaly is reported. -/
theorem detect_missing_column_no_true (index_len w : ℕ) (t : ℚ) :
    detect_anomalies_py index_len none w t = List.replicate index_len none ∧
      ∀ e ∈ detect_anomalies_py index_len none w t, e ≠ some true := by
  have h : detect_anomalies_py index_len none w t
      = List.replicate index_len none := rfl
  refine ⟨h, ?_⟩
  intro e he
  rw [h] at he
  rw [List.eq_of_mem_replicate he]
  exact Option.noConfusion
